import Mathlib

/-!
Shallow embedding of the decision core of the EDI-SEM-3 retail
decision-support engine: demand forecasting (backend/forecasting.py),
disruption-risk prediction and safe-purchase-window search
(backend/disruption.py), and what-if scenario simulation
(backend/scenario_simulation.py).

Modelling conventions: floating-point values are modelled by rationals;
pandas data frames by records holding a row count and optional columns
(a column is present for all rows or absent, as in a DataFrame);
pandas datetime accessors by a record of the calendar attributes the
code reads; the opaque trained predictors by function handles that may
fail (Except models a raised exception); and the numpy global random
generator by an explicit draw oracle passed to the one function that
consults it.
-/

/-- Calendar attributes of one entry of a date column, modelling the pandas
datetime accessors (dayofweek, month) used by the feature engineering. -/
structure CalDate where
  dow : Int
  month : Int
deriving DecidableEq

/-- A pandas DataFrame of prediction-input rows: a row count together with
the optional feature columns the prediction code inspects. -/
structure InputFrame where
  nrows : Nat
  date : Option (List CalDate)
  temperature : Option (List ℚ)
  rainfall : Option (List ℚ)
  congestion_index : Option (List ℚ)

/-- The disruption model handle of disruption.py: a classifier either
exposing predict_proba (positive-class probabilities are taken directly)
or only predict (raw outputs, clipped into the unit interval).  Either
call may raise, modelled by Except. -/
inductive RiskModel where
  | proba (predict : List (List ℚ) → Except Unit (List ℚ))
  | plain (predict : List (List ℚ) → Except Unit (List ℚ))

/-- Feature row built by the placeholder feature engineering of
predict_disruption (disruption.py lines 55-103): the available columns
among temperature, rainfall, congestion_index, the derived indicator
flags extreme_temp, heavy_rain, high_congestion, and the date-derived
day_of_week, month, is_weekend; missing values default to 0 (fillna). -/
def disruptionFeatureRow (df : InputFrame) (i : Nat) : List ℚ :=
  (match df.temperature with
    | some t => [t.getD i 0]
    | none => []) ++
  (match df.rainfall with
    | some r => [r.getD i 0]
    | none => []) ++
  (match df.congestion_index with
    | some c => [c.getD i 0]
    | none => []) ++
  (match df.temperature with
    | some t => [if t.getD i 0 < 0 ∨ 35 < t.getD i 0 then 1 else 0]
    | none => []) ++
  (match df.rainfall with
    | some r => [if 50 < r.getD i 0 then 1 else 0]
    | none => []) ++
  (match df.congestion_index with
    | some c => [if (7 : ℚ)/10 < c.getD i 0 then 1 else 0]
    | none => []) ++
  (match df.date with
    | some ds =>
      [((ds.getD i ⟨0, 1⟩).dow : ℚ), ((ds.getD i ⟨0, 1⟩).month : ℚ),
        if (ds.getD i ⟨0, 1⟩).dow = 5 ∨ (ds.getD i ⟨0, 1⟩).dow = 6 then 1 else 0]
    | none => [])

/-- Whether the available-features list of predict_disruption is non-empty:
at least one of the expected feature columns (or the date column that
yields the derived calendar features) is present. -/
def hasDisruptionFeatures (df : InputFrame) : Bool :=
  df.temperature.isSome || df.rainfall.isSome ||
    df.congestion_index.isSome || df.date.isSome

/-- predict_disruption (disruption.py lines 12-126).  With no model loaded
it returns one uniform(0.1, 0.4) draw per row from the global random
generator, modelled by the draw oracle; with no usable feature column it
returns a constant 0.3 series; otherwise it calls the model on the
engineered feature matrix, taking positive-class probabilities directly
from a predict_proba model and clipping plain predict output into [0, 1],
and falls back to the constant 0.3 series if the model raises. -/
def predict_disruption (model : Option RiskModel) (df : InputFrame)
    (draws : Nat → ℚ) : List ℚ :=
  match model with
  | none => (List.range df.nrows).map draws
  | some m =>
    if hasDisruptionFeatures df then
      let X := (List.range df.nrows).map (disruptionFeatureRow df)
      match m with
      | RiskModel.proba f =>
        match f X with
        | Except.ok ps => ps
        | Except.error _ => List.replicate df.nrows (3/10)
      | RiskModel.plain f =>
        match f X with
        | Except.ok ps => ps.map (fun p => min 1 (max p 0))
        | Except.error _ => List.replicate df.nrows (3/10)
    else
      List.replicate df.nrows (3/10)

/-- forecast_demand (forecasting.py lines 12-133).  The model handle is
predict composed with the placeholder feature-engineering pipeline of
lines 42-119 (the pipeline is a per-frame pure computation whose output
feeds only the opaque predictor, so it is folded into the handle; the
source marks it as a placeholder to be replaced).  With no model loaded
the function returns an all-zero series of the row count; on success the
predictions are clamped to be non-negative via np.maximum(predictions, 0);
if the predictor raises, an all-zero series is returned. -/
def forecast_demand (model : Option (InputFrame → Except Unit (List ℚ)))
    (df : InputFrame) : List ℚ :=
  match model with
  | none => List.replicate df.nrows 0
  | some predict =>
    match predict df with
    | Except.ok ps => ps.map (fun p => max p 0)
    | Except.error _ => List.replicate df.nrows 0

/-- Indices of the risk series strictly below the threshold, in increasing
order: np.where(risk_probabilities < threshold)[0]. -/
def safeList (risk : List ℚ) (threshold : ℚ) : List Nat :=
  (List.range risk.length).filter (fun i => decide (risk.getD i 0 < threshold))

/-- Grouping of a strictly increasing index list into maximal consecutive
runs: np.split(safe_indices, np.where(np.diff(safe_indices) != 1)[0] + 1),
which cuts between two adjacent entries whenever they do not differ by
exactly one. -/
def groupConsecutive : List Nat → List (List Nat)
  | [] => []
  | i :: rest =>
    match groupConsecutive rest with
    | [] => [[i]]
    | g :: gs =>
      if i + 1 = g.headD 0 then (i :: g) :: gs
      else [i] :: g :: gs

/-- Python max(groups, key=len): the first group of greatest length (max
replaces the current best only on a strictly greater key). -/
def maxByLen (gs : List (List Nat)) : List Nat :=
  match gs with
  | [] => []
  | g :: rest =>
    rest.foldl (fun best cur => if best.length < cur.length then cur else best) g

/-- calculate_safe_purchase_window (disruption.py lines 129-172): the
longest (earliest on ties) run of consecutive indices with risk strictly
below the threshold, returned as (start date, end date, run length), or
(None, None, 0) when an input is empty or no index is safe.  The iloc
date lookups of the source are modelled by getD, total on the in-range
indices the function produces for equal-length inputs. -/
def calculate_safe_purchase_window (dates : List Int) (risk : List ℚ)
    (threshold : ℚ) : Option Int × Option Int × Nat :=
  if dates.length = 0 ∨ risk.length = 0 then (none, none, 0)
  else
    let safe := safeList risk threshold
    if safe.length = 0 then (none, none, 0)
    else
      let groups := groupConsecutive safe
      let lg := maxByLen groups
      if lg.length = 0 then (none, none, 0)
      else (some (dates.getD (lg.headD 0) 0), some (dates.getD (lg.getLastD 0) 0),
        lg.length)

/-- One entry of the scenario registry: display name, description, and the
severity-keyed multiplier/adjustment dictionaries. -/
structure Scenario where
  name : String
  description : String
  demand_multiplier : List (String × ℚ)
  risk_adjustment : List (String × ℚ)
deriving DecidableEq

def sevLow : String := "low"

def sevExtreme : String := "extreme"

def scePromotion : String := "promotion"

def sceNonexistent : String := "nonexistent"

def sevMedium : String := "medium"

def sevHigh : String := "high"

def festival_spike : Scenario :=
  { name := "Festival Demand Spike"
    description := "Increased demand during festival season"
    demand_multiplier := [(sevLow, 6/5), (sevMedium, 3/2), (sevHigh, 2)]
    risk_adjustment := [(sevLow, 1/20), (sevMedium, 1/10), (sevHigh, 3/20)] }

def bad_weather : Scenario :=
  { name := "Bad Weather Conditions"
    description := "Heavy rainfall or extreme temperatures"
    demand_multiplier := [(sevLow, 19/20), (sevMedium, 17/20), (sevHigh, 7/10)]
    risk_adjustment := [(sevLow, 1/10), (sevMedium, 1/5), (sevHigh, 7/20)] }

def logistics_delay : Scenario :=
  { name := "Logistics Delay"
    description := "Supply chain disruption or delivery delays"
    demand_multiplier := [(sevLow, 1), (sevMedium, 1), (sevHigh, 1)]
    risk_adjustment := [(sevLow, 3/20), (sevMedium, 3/10), (sevHigh, 1/2)] }

def promotion : Scenario :=
  { name := "Promotional Campaign"
    description := "Marketing promotion or discount offer"
    demand_multiplier := [(sevLow, 13/10), (sevMedium, 8/5), (sevHigh, 11/5)]
    risk_adjustment := [(sevLow, 0), (sevMedium, 1/20), (sevHigh, 1/10)] }

def competitor_action : Scenario :=
  { name := "Competitor Action"
    description := "Competitor launches similar product or promotion"
    demand_multiplier := [(sevLow, 9/10), (sevMedium, 3/4), (sevHigh, 3/5)]
    risk_adjustment := [(sevLow, 1/20), (sevMedium, 1/10), (sevHigh, 3/20)] }

/-- ScenarioSimulator.SCENARIOS (scenario_simulation.py lines 17-48): the
fixed five-scenario registry, keyed by scenario id. -/
def SCENARIOS : List (String × Scenario) :=
  [("festival_spike", festival_spike),
   ("bad_weather", bad_weather),
   ("logistics_delay", logistics_delay),
   ("promotion", promotion),
   ("competitor_action", competitor_action)]

/-- ScenarioSimulator.apply_scenario (scenario_simulation.py lines 56-87):
unknown scenario ids return the inputs unchanged; otherwise the demand is
multiplied by the severity multiplier (dict .get default 1.0) and the
risk is shifted by the severity adjustment (dict .get default 0.0) and
clipped into [0, 1] via np.clip. -/
def apply_scenario (demand_forecast risk_forecast : List ℚ)
    (scenario_type severity : String) : List ℚ × List ℚ :=
  match SCENARIOS.lookup scenario_type with
  | none => (demand_forecast, risk_forecast)
  | some scenario =>
    let demand_mult := (scenario.demand_multiplier.lookup severity).getD 1
    let modified_demand := demand_forecast.map (fun d => d * demand_mult)
    let risk_adj := (scenario.risk_adjustment.lookup severity).getD 0
    let modified_risk := risk_forecast.map (fun r => min 1 (max (r + risk_adj) 0))
    (modified_demand, modified_risk)

/-- Structured content of the recommendation text assembled by
ScenarioSimulator.get_recommendation: which branch was taken, the dates,
duration and average demand it prints, and the two optional advisory
lines gated on average and peak risk. -/
structure Recommendation where
  highAlert : Bool
  startDate : Option Int
  endDate : Option Int
  durationDays : Option Nat
  reportedAvgDemand : Option ℚ
  higherSafetyStockNote : Bool
  contingencyNote : Bool
deriving DecidableEq

/-- ScenarioSimulator.get_recommendation (scenario_simulation.py lines
147-202).  The aggregate statistics are computed before any branch, so an
empty modified-risk series raises (np.max of an empty series, line 167),
modelled as none.  With no index of the modified risk strictly below the
threshold the high-alert text is emitted, carrying no dates and no
statistics.  Otherwise the span from the first to the last safe index is
read via dates.iloc, which raises IndexError when the date list is too
short for a safe index (modelled as none); with both lookups in range the
text reports those dates, a duration equal to the total count of safe
indices, the mean of the whole modified demand series (for an empty
demand np.mean prints nan, so the mean field is only asserted for
non-empty demand), and advisory notes when the mean risk exceeds 0.5 or
the peak risk exceeds 0.7. -/
def get_recommendation (modified_demand modified_risk : List ℚ)
    (dates : List Int) (risk_threshold : ℚ) : Option Recommendation :=
  if modified_risk = [] then none
  else
    let avg_demand := modified_demand.sum / (modified_demand.length : ℚ)
    let avg_risk := modified_risk.sum / (modified_risk.length : ℚ)
    let max_risk := modified_risk.foldl max (modified_risk.headD 0)
    let safe_indices := safeList modified_risk risk_threshold
    if safe_indices.length = 0 then
      some
        { highAlert := true, startDate := none, endDate := none,
          durationDays := none, reportedAvgDemand := none,
          higherSafetyStockNote := false, contingencyNote := false }
    else
      match dates[safe_indices.headD 0]?, dates[safe_indices.getLastD 0]? with
      | some start_date, some end_date =>
        some
          { highAlert := false,
            startDate := some start_date,
            endDate := some end_date,
            durationDays := some safe_indices.length,
            reportedAvgDemand := some avg_demand,
            higherSafetyStockNote := decide ((1 : ℚ)/2 < avg_risk),
            contingencyNote := decide ((7 : ℚ)/10 < max_risk) }
      | _, _ => none

/-- A historical DataFrame as consumed by create_future_dataframe: a row
count and the optional columns the function reads.  Dates are modelled as
integer day numbers (consecutive calendar days differ by one). -/
structure HistFrame where
  nrows : Nat
  date : Option (List Int)
  temperature : Option (List ℚ)
  rainfall : Option (List ℚ)
  congestion_index : Option (List ℚ)
  units_sold : Option (List ℚ)
  product : Option (List String)
  location : Option (List String)

/-- The future DataFrame built by create_future_dataframe: the generated
date column plus the per-row-constant feature columns the code assigns
(pandas broadcasts the scalar assignments to every row). -/
structure FutureFrame where
  date : List Int
  temperature : ℚ
  rainfall : ℚ
  holiday_flag : ℚ
  promotion_flag : ℚ
  congestion_index : ℚ
  product : Option String
  location : Option String
  units_sold : ℚ
deriving DecidableEq

/-- DataFrame.tail(k): the last min(k, length) rows. -/
def tailN (l : List ℚ) (k : Nat) : List ℚ := l.drop (l.length - k)

/-- Series.mean modelled on rationals (used only on non-empty series). -/
def listMean (l : List ℚ) : ℚ := l.sum / (l.length : ℚ)

/-- Series.max modelled on integer day numbers (used only on non-empty
series). -/
def listMax (l : List Int) : Int := l.foldl max (l.headD 0)

def emptyStr : String := ""

/-- create_future_dataframe (forecasting.py lines 136-229).  An empty (or
None) history returns an empty DataFrame, modelled as none.  Otherwise
the future dates are the horizon_days consecutive days after the maximum
historical date (after the current date, modelled by the today argument,
when the date column is absent); weather and congestion columns are the
means of the trailing 60 rows (with fixed defaults when absent), holiday
and promotion flags are 0, product and location are copied from the last
historical row, and the units_sold seed is the mean of the trailing 30
rows (0 when absent). -/
def create_future_dataframe (hist : HistFrame) (horizon_days : Nat)
    (today : Int) : Option FutureFrame :=
  if hist.nrows = 0 then none
  else
    let last_date := match hist.date with
      | some ds => listMax ds
      | none => today
    some
      { date := (List.range horizon_days).map (fun (i : Nat) => last_date + 1 + (i : Int))
        temperature := match hist.temperature with
          | some t => listMean (tailN t 60)
          | none => 20
        rainfall := match hist.rainfall with
          | some r => listMean (tailN r 60)
          | none => 0
        holiday_flag := 0
        promotion_flag := 0
        congestion_index := match hist.congestion_index with
          | some c => listMean (tailN c 60)
          | none => 1/2
        product := hist.product.map (fun l => l.getLastD emptyStr)
        location := hist.location.map (fun l => l.getLastD emptyStr)
        units_sold := match hist.units_sold with
          | some u => listMean (tailN u 30)
          | none => 0 }

/-- Row count of an optional future DataFrame (an absent frame has no
rows). -/
def futureRowCount : Option FutureFrame → Nat
  | none => 0
  | some f => f.date.length

/-- Index i is safe for the risk series at the given threshold: in range
and with risk strictly below the threshold. -/
def SafeIdx (risk : List ℚ) (threshold : ℚ) (i : Nat) : Prop :=
  i < risk.length ∧ risk.getD i 0 < threshold

instance (risk : List ℚ) (threshold : ℚ) (i : Nat) :
    Decidable (SafeIdx risk threshold i) := by
  unfold SafeIdx; infer_instance

/-- The indices s, s+1, ..., s+k-1 form a maximal run of consecutive safe
indices: non-empty, every index safe, not extendable to the left or to
the right. -/
def IsMaxRun (risk : List ℚ) (threshold : ℚ) (s k : Nat) : Prop :=
  0 < k ∧ (∀ j, s ≤ j → j < s + k → SafeIdx risk threshold j) ∧
    (s = 0 ∨ ¬ SafeIdx risk threshold (s - 1)) ∧ ¬ SafeIdx risk threshold (s + k)

/-- Start/length representation of the consecutive runs of a strictly
increasing index list, used to reason about groupConsecutive. -/
def consecBlocks : List Nat → List (Nat × Nat)
  | [] => []
  | i :: rest =>
    match consecBlocks rest with
    | [] => [(i, 1)]
    | (s, k) :: bs =>
      if i + 1 = s then (i, k + 1) :: bs
      else (i, 1) :: (s, k) :: bs

/-- Python max over start/length blocks with key length: first block of
greatest length. -/
def bestBlock (b : Nat × Nat) (bs : List (Nat × Nat)) : Nat × Nat :=
  bs.foldl (fun best cur => if best.2 < cur.2 then cur else best) b

/-! ### Generic list lemmas used by several theorems -/

lemma getD_map_of_lt {α β : Type} (f : α → β) :
    ∀ (l : List α) (i : Nat), i < l.length →
      ∀ (d : β) (e : α), (l.map f).getD i d = f (l.getD i e) := by
  intro l
  induction l with
  | nil => intro i hi d e; simp at hi
  | cons a t ih =>
    intro i hi d e
    cases i with
    | zero => rfl
    | succ j =>
      simp only [List.length_cons, Nat.succ_lt_succ_iff] at hi
      simpa using ih j hi d e

lemma getD_mem_of_lt {α : Type} :
    ∀ (l : List α) (i : Nat), i < l.length → ∀ (d : α), l.getD i d ∈ l := by
  intro l
  induction l with
  | nil => intro i hi; simp at hi
  | cons a t ih =>
    intro i hi d
    cases i with
    | zero => simp
    | succ j =>
      simp only [List.length_cons, Nat.succ_lt_succ_iff] at hi
      simpa using Or.inr (ih j hi d)

lemma pairwise_mem_total {α : Type} {R : α → α → Prop} :
    ∀ {l : List α}, l.Pairwise R → ∀ {a b : α}, a ∈ l → b ∈ l → a ≠ b →
      R a b ∨ R b a := by
  intro l
  induction l with
  | nil => intro _ a b ha; simp at ha
  | cons c t ih =>
    intro hp a b ha hb hne
    rcases List.pairwise_cons.mp hp with ⟨hc, ht⟩
    rcases List.mem_cons.mp ha with ha1 | ha2
    · rcases List.mem_cons.mp hb with hb1 | hb2
      · exact absurd (ha1.trans hb1.symm) hne
      · exact Or.inl (by rw [ha1]; exact hc b hb2)
    · rcases List.mem_cons.mp hb with hb1 | hb2
      · exact Or.inr (by rw [hb1]; exact hc a ha2)
      · exact ih ht ha2 hb2 hne

lemma foldl_max_init_le {α : Type} [LinearOrder α] :
    ∀ (l : List α) (a : α), a ≤ l.foldl max a := by
  intro l
  induction l with
  | nil => intro a; simp
  | cons b t ih =>
    intro a
    simpa using le_trans (le_max_left a b) (ih (max a b))

lemma foldl_max_le_of_mem {α : Type} [LinearOrder α] :
    ∀ (l : List α) (a x : α), x ∈ l → x ≤ l.foldl max a := by
  intro l
  induction l with
  | nil => intro a x hx; simp at hx
  | cons b t ih =>
    intro a x hx
    rcases List.mem_cons.mp hx with rfl | hx
    · simpa using le_trans (le_max_right a x) (foldl_max_init_le t (max a x))
    · simpa using ih (max a b) x hx

lemma foldl_max_mem {α : Type} [LinearOrder α] :
    ∀ (l : List α) (a : α), l.foldl max a = a ∨ l.foldl max a ∈ l := by
  intro l
  induction l with
  | nil => intro a; simp
  | cons b t ih =>
    intro a
    simp only [List.foldl_cons]
    rcases ih (max a b) with h | h
    · rcases le_total a b with hab | hab
      · rw [h, max_eq_right hab]; exact Or.inr (List.mem_cons_self b t)
      · rw [h, max_eq_left hab]; exact Or.inl rfl
    · exact Or.inr (List.mem_cons_of_mem b h)

lemma headD_mem {α : Type} {l : List α} (h : l ≠ []) (d : α) : l.headD d ∈ l := by
  cases l with
  | nil => exact absurd rfl h
  | cons a t => simp

lemma getLastD_mem {α : Type} :
    ∀ {l : List α}, l ≠ [] → ∀ (d : α), l.getLastD d ∈ l := by
  intro l
  induction l with
  | nil => intro h; exact absurd rfl h
  | cons a t ih =>
    intro _ d
    cases ht : t with
    | nil => simp
    | cons b u =>
      rw [List.getLastD_cons]
      subst ht
      exact List.mem_cons_of_mem a (ih (by simp) a)

lemma headD_le_of_pairwise {α : Type} [Preorder α] {l : List α}
    (h : l.Pairwise (· < ·)) {x : α} (hx : x ∈ l) (d : α) : l.headD d ≤ x := by
  cases l with
  | nil => simp at hx
  | cons a t =>
    rcases List.mem_cons.mp hx with rfl | hxt
    · simp
    · exact le_of_lt ((List.pairwise_cons.mp h).1 x hxt)

lemma le_getLastD_of_pairwise {α : Type} [Preorder α] :
    ∀ {l : List α}, l.Pairwise (· < ·) → ∀ {x : α}, x ∈ l → ∀ (d : α),
      x ≤ l.getLastD d := by
  intro l
  induction l with
  | nil => intro _ x hx; simp at hx
  | cons a t ih =>
    intro h x hx d
    rcases List.pairwise_cons.mp h with ⟨ha, ht⟩
    cases htt : t with
    | nil =>
      subst htt
      rcases List.mem_cons.mp hx with rfl | hxt
      · simp
      · simp at hxt
    | cons b u =>
      rw [List.getLastD_cons]
      subst htt
      rcases List.mem_cons.mp hx with rfl | hxt
      · exact le_of_lt (ha _ (getLastD_mem (by simp) x))
      · exact ih ht hxt a

lemma lookup_mem_values {α β : Type} [BEq α] :
    ∀ {l : List (α × β)} {a : α} {b : β}, l.lookup a = some b →
      b ∈ l.map Prod.snd := by
  intro l
  induction l with
  | nil => intro a b h; simp [List.lookup] at h
  | cons hd tl ih =>
    intro a b h
    obtain ⟨k, v⟩ := hd
    rw [List.lookup] at h
    by_cases hk : (a == k) = true
    · rw [hk] at h
      simp only [Option.some.injEq] at h
      subst h
      simp
    · rw [Bool.not_eq_true] at hk
      rw [hk] at h
      exact List.mem_cons_of_mem _ (ih h)

lemma getD_lookup_nonneg {l : List (String × ℚ)} {sev : String}
    (h : ∀ v ∈ l.map Prod.snd, 0 ≤ v) : 0 ≤ (l.lookup sev).getD 0 := by
  cases hl : l.lookup sev with
  | none => simp
  | some v => simpa using h v (lookup_mem_values hl)

lemma scenario_adjustment_values_nonneg {sc : Scenario}
    (hmem : sc ∈ SCENARIOS.map Prod.snd) :
    ∀ v ∈ sc.risk_adjustment.map Prod.snd, 0 ≤ v := by
  simp only [SCENARIOS, List.map_cons, List.map_nil, List.mem_cons,
    List.not_mem_nil, or_false] at hmem
  rcases hmem with h | h | h | h | h <;> subst h <;>
    simp only [festival_spike, bad_weather, logistics_delay, promotion,
      competitor_action, List.map_cons, List.map_nil, List.mem_cons,
      List.not_mem_nil, or_false] <;>
    rintro v (rfl | rfl | rfl) <;> norm_num

/-- C2: for every demand series, risk series, known scenario id and known
severity tier, apply_scenario multiplies demand element-wise by the
registry multiplier and shifts risk element-wise by the registry
adjustment clamped into the unit interval; in particular for
demand = [100], risk = [0.2], scenario promotion, severity high, it
returns adjustedDemand = [220] and adjustedRisk = [0.3]. -/
theorem apply_scenario_known_spec (demand risk : List ℚ) (sid sev : String)
    (sc : Scenario) (m a : ℚ)
    (hs : SCENARIOS.lookup sid = some sc)
    (hm : sc.demand_multiplier.lookup sev = some m)
    (ha : sc.risk_adjustment.lookup sev = some a) :
    (∀ i, i < demand.length →
      (apply_scenario demand risk sid sev).1.getD i 0 = demand.getD i 0 * m)
    ∧ (∀ i, i < risk.length →
      (apply_scenario demand risk sid sev).2.getD i 0
        = min 1 (max (risk.getD i 0 + a) 0))
    ∧ apply_scenario [100] [1/5] scePromotion sevHigh = ([220], [3/10]) := by
  refine ⟨?_, ?_, ?_⟩
  · intro i hi
    simp only [apply_scenario, hs, hm, Option.getD_some]
    exact getD_map_of_lt _ demand i hi 0 0
  · intro i hi
    simp only [apply_scenario, hs, ha, Option.getD_some]
    exact getD_map_of_lt _ risk i hi 0 0
  · have h1 : SCENARIOS.lookup scePromotion = some promotion := by
      simp [SCENARIOS, scePromotion, List.lookup]
    simp only [apply_scenario, h1]
    simp [promotion, sevLow, sevMedium, sevHigh, List.lookup]
    norm_num

/-- C2 witness: the general element-wise theorem applied at the concrete
promotion/high instance of the spec. -/
theorem apply_scenario_known_spec_witness :
    (∀ i, i < ([100] : List ℚ).length →
      (apply_scenario [100] [1/5] scePromotion sevHigh).1.getD i 0
        = ([100] : List ℚ).getD i 0 * (11/5))
    ∧ (∀ i, i < ([1/5] : List ℚ).length →
      (apply_scenario [100] [1/5] scePromotion sevHigh).2.getD i 0
        = min 1 (max (([1/5] : List ℚ).getD i 0 + 1/10) 0))
    ∧ apply_scenario [100] [1/5] scePromotion sevHigh = ([220], [3/10]) :=
  apply_scenario_known_spec [100] [1/5] scePromotion sevHigh promotion (11/5) (1/10)
    (by simp [SCENARIOS, scePromotion, List.lookup])
    (by simp [promotion, sevLow, sevMedium, sevHigh, List.lookup])
    (by simp [promotion, sevLow, sevMedium, sevHigh, List.lookup])

/-- C8 counterexample: with a known scenario (promotion) and an unknown
severity tier, a risk value outside the unit interval is clamped, so the
risk series is not returned unchanged as the claim states. -/
theorem apply_scenario_unknown_sev_cex :
    apply_scenario [100] [3/2] scePromotion sevExtreme = ([100], [1])
    ∧ ([1] : List ℚ) ≠ [3/2] := by
  constructor
  · have h1 : SCENARIOS.lookup scePromotion = some promotion := by
      simp [SCENARIOS, scePromotion, List.lookup]
    simp only [apply_scenario, h1]
    simp [promotion, sevLow, sevMedium, sevHigh, sevExtreme, List.lookup]
    norm_num
  · norm_num

/-- C8 amended: an unknown scenario id returns both inputs unchanged (in
particular for the nonexistent/medium instance of the spec); a known
scenario id with an unknown severity tier returns the demand unchanged
and the risk clamped element-wise into the unit interval, hence also
unchanged whenever every risk value already lies in the unit interval. -/
theorem apply_scenario_unknown_fallback (demand risk : List ℚ) (sid sev : String) :
    (SCENARIOS.lookup sid = none → apply_scenario demand risk sid sev = (demand, risk))
    ∧ (∀ sc, SCENARIOS.lookup sid = some sc →
        sc.demand_multiplier.lookup sev = none →
        sc.risk_adjustment.lookup sev = none →
        (apply_scenario demand risk sid sev).1 = demand
        ∧ (apply_scenario demand risk sid sev).2
            = risk.map (fun r => min 1 (max (r + 0) 0))
        ∧ ((∀ r ∈ risk, 0 ≤ r ∧ r ≤ 1) →
            (apply_scenario demand risk sid sev).2 = risk))
    ∧ apply_scenario demand risk sceNonexistent sevMedium = (demand, risk) := by
  refine ⟨?_, ?_, ?_⟩
  · intro h
    simp [apply_scenario, h]
  · intro sc hs hm ha
    refine ⟨?_, ?_, ?_⟩
    · simp [apply_scenario, hs, hm, mul_one]
    · simp [apply_scenario, hs, ha]
    · intro hr
      simp only [apply_scenario, hs, ha, Option.getD_none]
      rw [List.map_congr_left, List.map_id]
      intro r hrr
      rcases hr r hrr with ⟨h0, h1⟩
      rw [add_zero, max_eq_left h0, min_eq_right h1]
      rfl
  · have h1 : SCENARIOS.lookup sceNonexistent = none := by
      simp [SCENARIOS, sceNonexistent, List.lookup]
    simp [apply_scenario, h1]

/-- C8 witness: the amended theorem applied at a concrete unknown-severity
instance with in-range risk, returning both inputs unchanged. -/
theorem apply_scenario_unknown_fallback_witness :
    (apply_scenario [100] [1/2] scePromotion sevExtreme).1 = [100]
    ∧ (apply_scenario [100] [1/2] scePromotion sevExtreme).2 = [1/2] := by
  have h := (apply_scenario_unknown_fallback [100] [1/2] scePromotion sevExtreme).2.1
    promotion
    (by simp [SCENARIOS, scePromotion, List.lookup])
    (by simp [promotion, sevLow, sevMedium, sevHigh, sevExtreme, List.lookup])
    (by simp [promotion, sevLow, sevMedium, sevHigh, sevExtreme, List.lookup])
  exact ⟨h.1, h.2.2 (by norm_num)⟩

/-- C10: for every scenario id and severity (in particular every registry
scenario and tier) and every risk series with values in the unit
interval, the adjusted risk of apply_scenario is element-wise at least
the input risk: no scenario lowers risk, because every registry risk
adjustment is non-negative and the shifted value is clamped to the unit
interval that already contains the input. -/
theorem apply_scenario_risk_monotone (demand risk : List ℚ) (sid sev : String)
    (hr : ∀ r ∈ risk, 0 ≤ r ∧ r ≤ 1) :
    ∀ i, i < risk.length →
      risk.getD i 0 ≤ (apply_scenario demand risk sid sev).2.getD i 0 := by
  intro i hi
  cases hlk : SCENARIOS.lookup sid with
  | none => simp [apply_scenario, hlk]
  | some sc =>
    have hadj : 0 ≤ (sc.risk_adjustment.lookup sev).getD 0 :=
      getD_lookup_nonneg (scenario_adjustment_values_nonneg (lookup_mem_values hlk))
    have hmem : risk.getD i 0 ∈ risk := getD_mem_of_lt risk i hi 0
    rcases hr _ hmem with ⟨h0, h1⟩
    simp only [apply_scenario, hlk]
    rw [getD_map_of_lt _ risk i hi 0 0]
    refine le_min h1 (le_trans ?_ (le_max_left _ _))
    linarith

/-- C10 witness: the monotonicity theorem at the promotion/high instance
with risk [0.2]; the adjusted risk 0.3 is at least 0.2. -/
theorem apply_scenario_risk_monotone_witness :
    ([1/5] : List ℚ).getD 0 0
      ≤ (apply_scenario [100] [1/5] scePromotion sevHigh).2.getD 0 0 :=
  apply_scenario_risk_monotone [100] [1/5] scePromotion sevHigh
    (by norm_num) 0 (by norm_num)

lemma range_one_eq : List.range 1 = [0] := rfl

/-- C9 counterexample: with an absent model, predict_disruption returns
values taken from the global random generator, so two invocations on
equal inputs under two legal uniform(0.1, 0.4) draw sequences return
different outputs: the operation is not a pure function of its inputs. -/
theorem predict_disruption_rng_dependent_cex :
    ((1:ℚ)/10 ≤ 1/5 ∧ (1:ℚ)/5 < 2/5) ∧ ((1:ℚ)/10 ≤ 3/10 ∧ (3:ℚ)/10 < 2/5)
    ∧ predict_disruption none ⟨1, none, none, none, none⟩ (fun _ => 1/5)
        ≠ predict_disruption none ⟨1, none, none, none, none⟩ (fun _ => 3/10) := by
  refine ⟨⟨by norm_num, by norm_num⟩, ⟨by norm_num, by norm_num⟩, ?_⟩
  simp only [predict_disruption, range_one_eq, List.map_cons, List.map_nil]
  norm_num

/-- C9 amended: risk prediction with a loaded model does not consult the
random generator, so it is a deterministic pure function of the model and
the input frame (demand forecasting, window search and scenario
application take no random source at all in this embedding; only the
absent-model branch of predict_disruption is random). -/
theorem predict_disruption_loaded_model_deterministic (m : RiskModel)
    (df : InputFrame) (draws1 draws2 : Nat → ℚ) :
    predict_disruption (some m) df draws1 = predict_disruption (some m) df draws2 := rfl

/-- C4 counterexample: with an absent model, predict_disruption over a
one-row input under a legal uniform(0.1, 0.4) draw returns [0.2], not the
constant 0.3 series the claim states. -/
theorem predict_disruption_missing_model_cex :
    ((1:ℚ)/10 ≤ 1/5 ∧ (1:ℚ)/5 < 2/5)
    ∧ predict_disruption none ⟨1, none, none, none, none⟩ (fun _ => 1/5) = [1/5]
    ∧ ([1/5] : List ℚ) ≠ [3/10] := by
  refine ⟨⟨by norm_num, by norm_num⟩, ?_, by norm_num⟩
  simp only [predict_disruption, range_one_eq, List.map_cons, List.map_nil]

/-- C4 amended: with no model loaded, forecast_demand returns the all-zero
series of the row count (in particular [0,0,0,0,0] over 5 rows), while
predict_disruption returns one uniform(0.1, 0.4) draw per row: a series
of the right length whose values lie in [0.1, 0.4), not a constant 0.3
series. -/
theorem missing_model_fallbacks (df : InputFrame) (draws : Nat → ℚ)
    (hd : ∀ i, 1/10 ≤ draws i ∧ draws i < 2/5) :
    forecast_demand none df = List.replicate df.nrows 0
    ∧ forecast_demand none ⟨5, none, none, none, none⟩ = [0, 0, 0, 0, 0]
    ∧ (predict_disruption none df draws).length = df.nrows
    ∧ (∀ x ∈ predict_disruption none df draws, 1/10 ≤ x ∧ x < 2/5) := by
  refine ⟨rfl, rfl, ?_, ?_⟩
  · simp [predict_disruption]
  · intro x hx
    simp only [predict_disruption, List.mem_map] at hx
    obtain ⟨i, _, rfl⟩ := hx
    exact hd i

/-- C4 witness: the amended theorem at a concrete two-row frame with the
constant legal draw 0.2. -/
theorem missing_model_fallbacks_witness :
    forecast_demand none ⟨2, none, none, none, none⟩ = List.replicate 2 0
    ∧ forecast_demand none ⟨5, none, none, none, none⟩ = [0, 0, 0, 0, 0]
    ∧ (predict_disruption none ⟨2, none, none, none, none⟩ (fun _ => 1/5)).length = 2
    ∧ (∀ x ∈ predict_disruption none ⟨2, none, none, none, none⟩ (fun _ => 1/5),
        1/10 ≤ x ∧ x < 2/5) :=
  missing_model_fallbacks ⟨2, none, none, none, none⟩ (fun _ => 1/5)
    (fun _ => ⟨by norm_num, by norm_num⟩)

/-- C5: every value of the series returned by forecast_demand is
non-negative, for every input frame and every predictor state (absent,
returning predictions, or raising): the success path clamps with
np.maximum(predictions, 0) and every fallback path returns zeros. -/
theorem forecast_demand_nonneg (model : Option (InputFrame → Except Unit (List ℚ)))
    (df : InputFrame) : ∀ x ∈ forecast_demand model df, 0 ≤ x := by
  intro x hx
  cases model with
  | none =>
    simp only [forecast_demand] at hx
    rw [List.eq_of_mem_replicate hx]
  | some predict =>
    simp only [forecast_demand] at hx
    cases hp : predict df with
    | ok ps =>
      rw [hp] at hx
      rcases List.mem_map.mp hx with ⟨p, _, rfl⟩
      exact le_max_right p 0
    | error e =>
      rw [hp] at hx
      rw [List.eq_of_mem_replicate hx]

/-- C5 witness: the non-negativity theorem at a predictor returning the
raw value -7 over a one-row frame; the published value is 0. -/
theorem forecast_demand_nonneg_witness :
    (0:ℚ) ∈ forecast_demand (some (fun _ => Except.ok [-7]))
        ⟨1, none, none, none, none⟩
    ∧ (0:ℚ) ≤ 0 := by
  have hmem : (0:ℚ) ∈ forecast_demand (some (fun _ => Except.ok [-7]))
      ⟨1, none, none, none, none⟩ := by
    simp only [forecast_demand, List.map_cons, List.map_nil]
    norm_num
  exact ⟨hmem, forecast_demand_nonneg (some (fun _ => Except.ok [-7]))
    ⟨1, none, none, none, none⟩ 0 hmem⟩

/-- C6: every value of the series returned by predict_disruption lies in
the closed unit interval, for every input frame and every predictor state
(absent with legal uniform(0.1, 0.4) draws, probability-style with
probability outputs, raw-output clipped, or raising). -/
theorem predict_disruption_unit_interval (model : Option RiskModel)
    (df : InputFrame) (draws : Nat → ℚ)
    (hdraws : ∀ i, 1/10 ≤ draws i ∧ draws i < 2/5)
    (hproba : ∀ f, model = some (RiskModel.proba f) →
      ∀ X ps, f X = Except.ok ps → ∀ p ∈ ps, 0 ≤ p ∧ p ≤ 1) :
    ∀ x ∈ predict_disruption model df draws, 0 ≤ x ∧ x ≤ 1 := by
  intro x hx
  cases model with
  | none =>
    simp only [predict_disruption, List.mem_map] at hx
    obtain ⟨i, _, rfl⟩ := hx
    rcases hdraws i with ⟨h1, h2⟩
    constructor <;> linarith
  | some m =>
    simp only [predict_disruption] at hx
    by_cases hfeat : hasDisruptionFeatures df = true
    · rw [if_pos hfeat] at hx
      cases m with
      | proba f =>
        cases hf : f ((List.range df.nrows).map (disruptionFeatureRow df)) with
        | ok ps =>
          simp only [List.map_eq_map, hf] at hx
          exact hproba f rfl _ ps hf x hx
        | error e =>
          simp only [List.map_eq_map, hf] at hx
          rw [List.eq_of_mem_replicate hx]
          norm_num
      | plain f =>
        cases hf : f ((List.range df.nrows).map (disruptionFeatureRow df)) with
        | ok ps =>
          simp only [List.map_eq_map, hf] at hx
          rcases List.mem_map.mp hx with ⟨p, _, rfl⟩
          exact ⟨le_min (by norm_num) (le_max_right p 0), min_le_left 1 (max p 0)⟩
        | error e =>
          simp only [List.map_eq_map, hf] at hx
          rw [List.eq_of_mem_replicate hx]
          norm_num
    · rw [if_neg hfeat] at hx
      rw [List.eq_of_mem_replicate hx]
      norm_num

/-- C6 witness: the unit-interval theorem for the absent-model branch over
a one-row frame with the constant legal draw 0.2. -/
theorem predict_disruption_unit_interval_witness :
    (1:ℚ)/5 ∈ predict_disruption none ⟨1, none, none, none, none⟩ (fun _ => 1/5)
    ∧ (0 ≤ (1:ℚ)/5 ∧ (1:ℚ)/5 ≤ 1) := by
  have hmem : (1:ℚ)/5 ∈ predict_disruption none ⟨1, none, none, none, none⟩
      (fun _ => 1/5) := by
    simp [predict_disruption, range_one_eq]
  exact ⟨hmem, predict_disruption_unit_interval none ⟨1, none, none, none, none⟩
    (fun _ => 1/5) (fun _ => ⟨by norm_num, by norm_num⟩)
    (fun f h => Option.noConfusion h) (1/5) hmem⟩

lemma getD_map_range {α : Type} (f : Nat → α) (n i : Nat) (h : i < n) (d : α) :
    ((List.range n).map f).getD i d = f i := by
  rw [getD_map_of_lt f (List.range n) i (by simpa using h) d 0]
  congr 1
  rw [List.getD_eq_getElem?_getD, List.getElem?_range h]
  rfl

lemma listMax_spec (ds : List Int) (hne : ds ≠ []) :
    listMax ds ∈ ds ∧ ∀ d ∈ ds, d ≤ listMax ds := by
  constructor
  · rcases foldl_max_mem ds (ds.headD 0) with h | h
    · rw [listMax, h]; exact headD_mem hne 0
    · exact h
  · intro d hd
    exact foldl_max_le_of_mem ds (ds.headD 0) d hd

/-- C7 counterexample: an empty history with horizon 5 yields the empty
DataFrame (zero rows), not a five-row frame anchored to the current
date as the claim states. -/
theorem create_future_dataframe_empty_cex :
    create_future_dataframe ⟨0, none, none, none, none, none, none, none⟩ 5 0 = none
    ∧ futureRowCount
        (create_future_dataframe ⟨0, none, none, none, none, none, none, none⟩ 5 0) = 0
    ∧ (0 : Nat) ≠ 5 := by
  refine ⟨rfl, rfl, by norm_num⟩

/-- C7 amended: for a non-empty history, create_future_dataframe returns
exactly horizon_days rows whose dates are the consecutive calendar days
immediately following the maximum historical date (or following the
current date when the history has no date column); for an empty history
it returns the empty DataFrame with no rows. -/
theorem create_future_dataframe_spec (hist : HistFrame) (H : Nat) (today : Int) :
    (hist.nrows = 0 → create_future_dataframe hist H today = none)
    ∧ (hist.nrows ≠ 0 → ∃ f, create_future_dataframe hist H today = some f
        ∧ f.date.length = H
        ∧ (∀ ds, hist.date = some ds →
            (∀ i, i < H → f.date.getD i 0 = listMax ds + 1 + (i : Int))
            ∧ (ds ≠ [] → listMax ds ∈ ds ∧ ∀ d ∈ ds, d ≤ listMax ds))
        ∧ (hist.date = none →
            ∀ i, i < H → f.date.getD i 0 = today + 1 + (i : Int))) := by
  constructor
  · intro h
    simp [create_future_dataframe, h]
  · intro h
    unfold create_future_dataframe
    rw [if_neg h]
    refine ⟨_, rfl, by simp, ?_, ?_⟩
    · intro ds hds
      constructor
      · intro i hi
        dsimp only
        simp only [hds]
        exact getD_map_range _ H i hi 0
      · intro hne
        exact listMax_spec ds hne
    · intro hds i hi
      dsimp only
      simp only [hds]
      exact getD_map_range _ H i hi 0

/-- C7 witness: the amended theorem at a three-row history with dates
[10, 12, 11] and horizon 2: the future dates are 13 and 14. -/
theorem create_future_dataframe_spec_witness :
    ∃ f, create_future_dataframe
        ⟨3, some [10, 12, 11], none, none, none, none, none, none⟩ 2 0 = some f
      ∧ f.date.length = 2
      ∧ (∀ ds,
          (⟨3, some [10, 12, 11], none, none, none, none, none, none⟩ : HistFrame).date
            = some ds →
          (∀ i, i < 2 → f.date.getD i 0 = listMax ds + 1 + (i : Int))
          ∧ (ds ≠ [] → listMax ds ∈ ds ∧ ∀ d ∈ ds, d ≤ listMax ds))
      ∧ ((⟨3, some [10, 12, 11], none, none, none, none, none, none⟩ : HistFrame).date
            = none →
          ∀ i, i < 2 → f.date.getD i 0 = 0 + 1 + (i : Int)) :=
  (create_future_dataframe_spec
    ⟨3, some [10, 12, 11], none, none, none, none, none, none⟩ 2 0).2 (by simp)

/-! ### Structure of the consecutive-run grouping -/

lemma chain'_pairwise_of_trans {α : Type} {R : α → α → Prop}
    (htrans : ∀ a b c, R a b → R b c → R a c) :
    ∀ {l : List α}, l.Chain' R → l.Pairwise R := by
  intro l
  induction l with
  | nil => intro _; exact List.Pairwise.nil
  | cons a t ih =>
    intro h
    cases t with
    | nil => simp
    | cons b u =>
      rcases List.chain'_cons.mp h with ⟨hab, hbt⟩
      have hp := ih hbt
      refine List.pairwise_cons.mpr ⟨?_, hp⟩
      intro x hx
      rcases List.mem_cons.mp hx with hxb | hxu
      · rw [hxb]; exact hab
      · exact htrans a b x hab ((List.pairwise_cons.mp hp).1 x hxu)

lemma consecBlocks_eq_nil_iff : ∀ {l : List Nat}, consecBlocks l = [] ↔ l = [] := by
  intro l
  cases l with
  | nil => simp [consecBlocks]
  | cons i rest =>
    simp only [consecBlocks]
    cases consecBlocks rest with
    | nil => simp
    | cons b bs =>
      obtain ⟨s, k⟩ := b
      by_cases h : i + 1 = s <;> simp [h]

lemma consecBlocks_pos : ∀ {l : List Nat}, ∀ b ∈ consecBlocks l, 0 < b.2 := by
  intro l
  induction l with
  | nil => intro b hb; simp [consecBlocks] at hb
  | cons i rest ih =>
    intro b hb
    cases hcb : consecBlocks rest with
    | nil =>
      simp only [consecBlocks, hcb, List.mem_singleton] at hb
      rw [hb]
      norm_num
    | cons p bs =>
      obtain ⟨s, k⟩ := p
      simp only [consecBlocks, hcb] at hb
      by_cases h : i + 1 = s
      · rw [if_pos h] at hb
        rcases List.mem_cons.mp hb with hb1 | hb2
        · rw [hb1]
          norm_num
        · exact ih b (by rw [hcb]; exact List.mem_cons_of_mem _ hb2)
      · rw [if_neg h] at hb
        rcases List.mem_cons.mp hb with hb1 | hb2
        · rw [hb1]; norm_num
        · exact ih b (by rw [hcb]; exact hb2)

lemma consecBlocks_head_start :
    ∀ (i : Nat) (rest : List Nat), ∃ k bs, consecBlocks (i :: rest) = (i, k) :: bs := by
  intro i rest
  cases hcb : consecBlocks rest with
  | nil => exact ⟨1, [], by simp [consecBlocks, hcb]⟩
  | cons p bs =>
    obtain ⟨s, k⟩ := p
    by_cases h : i + 1 = s
    · exact ⟨k + 1, bs, by simp [consecBlocks, hcb, h]⟩
    · exact ⟨1, (s, k) :: bs, by simp [consecBlocks, hcb, h]⟩

lemma groupConsecutive_eq_map :
    ∀ (l : List Nat), groupConsecutive l
      = (consecBlocks l).map (fun b => List.range' b.1 b.2) := by
  intro l
  induction l with
  | nil => rfl
  | cons i rest ih =>
    cases hcb : consecBlocks rest with
    | nil =>
      have hrest : rest = [] := consecBlocks_eq_nil_iff.mp hcb
      subst hrest
      rfl
    | cons p bs =>
      obtain ⟨s, k⟩ := p
      have hk : 0 < k := consecBlocks_pos (s, k) (by rw [hcb]; exact List.mem_cons_self _ _)
      obtain ⟨k', rfl⟩ : ∃ k', k = k' + 1 := ⟨k - 1, by omega⟩
      have hhead : (List.range' s (k' + 1)).headD 0 = s := by
        simp [List.range']
      simp only [groupConsecutive, consecBlocks, ih, hcb, List.map_cons, hhead]
      by_cases h : i + 1 = s
      · rw [if_pos h, if_pos h]
        simp only [List.map_cons]
        congr 1
        have hr : List.range' i (k' + 1 + 1) = i :: List.range' (i + 1) (k' + 1) := by
          simp [List.range']
        rw [hr, h]
      · rw [if_neg h, if_neg h]
        simp [List.range']

lemma mem_consecBlocks_cover :
    ∀ (l : List Nat) (m : Nat), m ∈ l ↔
      ∃ b, b ∈ consecBlocks l ∧ b.1 ≤ m ∧ m < b.1 + b.2 := by
  intro l
  induction l with
  | nil => intro m; simp [consecBlocks]
  | cons i rest ih =>
    intro m
    cases hcb : consecBlocks rest with
    | nil =>
      have hrest : rest = [] := consecBlocks_eq_nil_iff.mp hcb
      subst hrest
      simp only [consecBlocks, List.mem_singleton, List.mem_cons, List.not_mem_nil,
        or_false]
      constructor
      · intro hmi
        exact ⟨(i, 1), rfl, by omega⟩
      · rintro ⟨b, hb, hcov⟩
        rw [hb] at hcov
        omega
    | cons p bs =>
      obtain ⟨s, k⟩ := p
      have hih := ih m
      rw [hcb] at hih
      simp only [List.mem_cons] at hih
      simp only [consecBlocks, hcb, List.mem_cons]
      by_cases h : i + 1 = s
      · rw [if_pos h]
        simp only [List.mem_cons]
        constructor
        · rintro (hmi | hm)
          · exact ⟨(i, k + 1), Or.inl rfl, by omega⟩
          · rcases hih.mp hm with ⟨b, hb, hcov⟩
            rcases hb with hb1 | hb2
            · refine ⟨(i, k + 1), Or.inl rfl, ?_⟩
              rw [hb1] at hcov
              omega
            · exact ⟨b, Or.inr hb2, hcov⟩
        · rintro ⟨b, hb, hcov⟩
          rcases hb with hb1 | hb2
          · rw [hb1] at hcov
            by_cases hmi : m = i
            · exact Or.inl hmi
            · exact Or.inr (hih.mpr ⟨(s, k), Or.inl rfl, by omega⟩)
          · exact Or.inr (hih.mpr ⟨b, Or.inr hb2, hcov⟩)
      · rw [if_neg h]
        simp only [List.mem_cons]
        constructor
        · rintro (hmi | hm)
          · exact ⟨(i, 1), Or.inl rfl, by omega⟩
          · rcases hih.mp hm with ⟨b, hb, hcov⟩
            exact ⟨b, Or.inr hb, hcov⟩
        · rintro ⟨b, hb, hcov⟩
          rcases hb with hb1 | hb2
          · rw [hb1] at hcov
            exact Or.inl (by omega)
          · exact Or.inr (hih.mpr ⟨b, hb2, hcov⟩)

lemma consecBlocks_chain :
    ∀ {l : List Nat}, l.Chain' (fun a b => a < b) →
      (consecBlocks l).Chain' (fun b c => b.1 + b.2 < c.1) := by
  intro l
  induction l with
  | nil => intro _; simp [consecBlocks]
  | cons i rest ih =>
    intro h
    cases rest with
    | nil => simp [consecBlocks]
    | cons r0 rr =>
      rcases List.chain'_cons.mp h with ⟨hir, hrest⟩
      have hch := ih hrest
      obtain ⟨k0, bs0, hb0⟩ := consecBlocks_head_start r0 rr
      rw [hb0] at hch
      have hunf : consecBlocks (i :: r0 :: rr)
          = if i + 1 = r0 then (i, k0 + 1) :: bs0
            else (i, 1) :: (r0, k0) :: bs0 := by
        conv_lhs => rw [consecBlocks]
        rw [hb0]
      rw [hunf]
      by_cases hif : i + 1 = r0
      · rw [if_pos hif]
        cases bs0 with
        | nil => simp
        | cons c cs =>
          rcases List.chain'_cons.mp hch with ⟨hgap, hcs⟩
          have hgap2 : r0 + k0 < c.1 := hgap
          have hnew : i + (k0 + 1) < c.1 := by omega
          exact List.chain'_cons.mpr ⟨hnew, hcs⟩
      · rw [if_neg hif]
        have hnew : i + 1 < r0 := by omega
        exact List.chain'_cons.mpr ⟨hnew, hch⟩

lemma mem_safeList (risk : List ℚ) (threshold : ℚ) (i : Nat) :
    i ∈ safeList risk threshold ↔ SafeIdx risk threshold i := by
  simp [safeList, List.mem_filter, List.mem_range, SafeIdx, and_comm]

lemma safeList_pairwise (risk : List ℚ) (threshold : ℚ) :
    (safeList risk threshold).Pairwise (fun a b => a < b) :=
  (List.pairwise_lt_range risk.length).filter _

lemma safeList_chain (risk : List ℚ) (threshold : ℚ) :
    (safeList risk threshold).Chain' (fun a b => a < b) := by
  rw [List.chain'_iff_pairwise]
  exact safeList_pairwise risk threshold

lemma blockGap_trans :
    ∀ a b c : Nat × Nat, a.1 + a.2 < b.1 → b.1 + b.2 < c.1 → a.1 + a.2 < c.1 := by
  intro a b c h1 h2
  omega

lemma consecBlocks_safe_isMaxRun (risk : List ℚ) (threshold : ℚ) :
    ∀ s k, (s, k) ∈ consecBlocks (safeList risk threshold) →
      IsMaxRun risk threshold s k := by
  have hpair : (consecBlocks (safeList risk threshold)).Pairwise
      (fun b c => b.1 + b.2 < c.1) :=
    chain'_pairwise_of_trans blockGap_trans
      (consecBlocks_chain (safeList_chain risk threshold))
  intro s k hb
  have hk : 0 < k := consecBlocks_pos (s, k) hb
  have hcov : ∀ j, s ≤ j → j < s + k → SafeIdx risk threshold j := by
    intro j h1 h2
    exact (mem_safeList risk threshold j).mp
      ((mem_consecBlocks_cover _ j).mpr ⟨(s, k), hb, h1, h2⟩)
  refine ⟨hk, hcov, ?_, ?_⟩
  · by_cases hs : s = 0
    · exact Or.inl hs
    · refine Or.inr ?_
      intro hsafe
      have hmem := (mem_safeList risk threshold (s - 1)).mpr hsafe
      rcases (mem_consecBlocks_cover _ (s - 1)).mp hmem with ⟨b, hbmem, hcov2⟩
      obtain ⟨b1, b2⟩ := b
      have hcov3 : b1 ≤ s - 1 ∧ s - 1 < b1 + b2 := hcov2
      by_cases hbb : (b1, b2) = (s, k)
      · rw [Prod.mk.injEq] at hbb
        omega
      · rcases pairwise_mem_total hpair hbmem hb hbb with hlt | hlt
        · have hlt2 : b1 + b2 < s := hlt
          omega
        · have hlt2 : s + k < b1 := hlt
          omega
  · intro hsafe
    have hmem := (mem_safeList risk threshold (s + k)).mpr hsafe
    rcases (mem_consecBlocks_cover _ (s + k)).mp hmem with ⟨b, hbmem, hcov2⟩
    obtain ⟨b1, b2⟩ := b
    have hcov3 : b1 ≤ s + k ∧ s + k < b1 + b2 := hcov2
    by_cases hbb : (b1, b2) = (s, k)
    · rw [Prod.mk.injEq] at hbb
      omega
    · rcases pairwise_mem_total hpair hbmem hb hbb with hlt | hlt
      · have hlt2 : b1 + b2 < s := hlt
        omega
      · have hlt2 : s + k < b1 := hlt
        omega

lemma mem_consecBlocks_safe_iff (risk : List ℚ) (threshold : ℚ) (s k : Nat) :
    (s, k) ∈ consecBlocks (safeList risk threshold)
      ↔ IsMaxRun risk threshold s k := by
  constructor
  · exact consecBlocks_safe_isMaxRun risk threshold s k
  · rintro ⟨hk, hcov, hleft, hright⟩
    have hsmem := (mem_safeList risk threshold s).mpr (hcov s le_rfl (by omega))
    rcases (mem_consecBlocks_cover _ s).mp hsmem with ⟨b, hbmem, hcov2⟩
    obtain ⟨s2, k2⟩ := b
    have hcov3 : s2 ≤ s ∧ s < s2 + k2 := hcov2
    rcases consecBlocks_safe_isMaxRun risk threshold s2 k2 hbmem with
      ⟨hk2, hcov2', hleft2, hright2⟩
    have hs2 : s2 = s := by
      by_contra hne
      have hlt : s2 < s := by omega
      have hsafe : SafeIdx risk threshold (s - 1) := hcov2' (s - 1) (by omega) (by omega)
      rcases hleft with h0 | hnot
      · omega
      · exact hnot hsafe
    subst hs2
    have hk2eq : k2 = k := by
      by_contra hne
      rcases Nat.lt_or_ge k2 k with hlt | hge
      · exact hright2 (hcov (s2 + k2) (by omega) (by omega))
      · have hsafe : SafeIdx risk threshold (s2 + k) :=
          hcov2' (s2 + k) (by omega) (by omega)
        exact hright hsafe
    subst hk2eq
    exact hbmem

lemma bestBlock_spec :
    ∀ (bs : List (Nat × Nat)) (b : Nat × Nat),
      List.Chain' (fun x y : Nat × Nat => x.1 < y.1) (b :: bs) →
      bestBlock b bs ∈ b :: bs
        ∧ ∀ c ∈ b :: bs, c.2 ≤ (bestBlock b bs).2
            ∧ (c.2 = (bestBlock b bs).2 → (bestBlock b bs).1 ≤ c.1) := by
  intro bs
  induction bs with
  | nil =>
    intro b _
    refine ⟨List.mem_cons_self _ _, ?_⟩
    intro c hc
    rcases List.mem_cons.mp hc with hc1 | hc2
    · rw [hc1]
      exact ⟨le_rfl, fun _ => le_rfl⟩
    · simp at hc2
  | cons d ds ih =>
    intro b hchain
    rcases List.chain'_cons.mp hchain with ⟨hbd, hdd⟩
    have hunf : bestBlock b (d :: ds) = bestBlock (if b.2 < d.2 then d else b) ds := rfl
    by_cases hcmp : b.2 < d.2
    · rw [if_pos hcmp] at hunf
      have hch2 : List.Chain' (fun x y : Nat × Nat => x.1 < y.1) (d :: ds) := hdd
      obtain ⟨hmem, hbound⟩ := ih d hch2
      rw [hunf]
      constructor
      · exact List.mem_cons_of_mem b hmem
      · intro c hc
        rcases List.mem_cons.mp hc with hc1 | hc2
        · rw [hc1]
          have hd2 := (hbound d (List.mem_cons_self _ _)).1
          refine ⟨by omega, ?_⟩
          intro heq
          omega
        · exact hbound c hc2
    · rw [if_neg hcmp] at hunf
      have hch2 : List.Chain' (fun x y : Nat × Nat => x.1 < y.1) (b :: ds) := by
        cases ds with
        | nil => simp
        | cons e es =>
          rcases List.chain'_cons.mp hdd with ⟨hde, hee⟩
          exact List.chain'_cons.mpr ⟨by omega, hee⟩
      obtain ⟨hmem, hbound⟩ := ih b hch2
      rw [hunf]
      constructor
      · rcases List.mem_cons.mp hmem with h1 | h2
        · exact List.mem_cons.mpr (Or.inl h1)
        · exact List.mem_cons.mpr (Or.inr (List.mem_cons.mpr (Or.inr h2)))
      · intro c hc
        rcases List.mem_cons.mp hc with hc1 | hc2
        · rw [hc1]
          exact (hbound b (List.mem_cons_self _ _)).1.trans_eq rfl |>.trans_eq rfl
            |> fun hb2 => ⟨hb2, (hbound b (List.mem_cons_self _ _)).2⟩
        · rcases List.mem_cons.mp hc2 with hcd | hcds
          · rw [hcd]
            have hb2 := (hbound b (List.mem_cons_self _ _)).1
            refine ⟨by omega, ?_⟩
            intro heq
            have hb2eq : b.2 = (bestBlock b ds).2 := by omega
            have := (hbound b (List.mem_cons_self _ _)).2 hb2eq
            omega
          · exact hbound c (List.mem_cons_of_mem b hcds)

lemma foldl_maxByLen_map :
    ∀ (bs : List (Nat × Nat)) (b : Nat × Nat),
      List.foldl (fun best cur => if best.length < cur.length then cur else best)
        (List.range' b.1 b.2) (bs.map (fun p => List.range' p.1 p.2))
      = List.range' (bestBlock b bs).1 (bestBlock b bs).2 := by
  intro bs
  induction bs with
  | nil => intro b; rfl
  | cons d ds ih =>
    intro b
    simp only [List.map_cons, List.foldl_cons, List.length_range']
    have hunf : bestBlock b (d :: ds) = bestBlock (if b.2 < d.2 then d else b) ds := rfl
    by_cases hcmp : b.2 < d.2
    · rw [if_pos hcmp, hunf, if_pos hcmp]
      exact ih d
    · rw [if_neg hcmp, hunf, if_neg hcmp]
      exact ih b

lemma maxByLen_map_eq (b : Nat × Nat) (bs : List (Nat × Nat)) :
    maxByLen ((b :: bs).map (fun p => List.range' p.1 p.2))
      = List.range' (bestBlock b bs).1 (bestBlock b bs).2 := by
  simp only [List.map_cons, maxByLen]
  exact foldl_maxByLen_map bs b

lemma range'_headD (s k : Nat) (hk : 0 < k) (d : Nat) :
    (List.range' s k).headD d = s := by
  obtain ⟨k2, rfl⟩ : ∃ k2, k = k2 + 1 := ⟨k - 1, by omega⟩
  simp [List.range']

lemma range'_getLastD :
    ∀ (k s d : Nat), 0 < k → (List.range' s k).getLastD d = s + k - 1 := by
  intro k
  induction k with
  | zero => intro s d h; omega
  | succ n ih =>
    intro s d _
    cases n with
    | zero => simp [List.range']
    | succ m =>
      have h1 : List.range' s (m + 1 + 1) = s :: List.range' (s + 1) (m + 1) := by
        simp [List.range']
      rw [h1, List.getLastD_cons, ih (s + 1) s (by omega)]
      omega

lemma calculate_safe_purchase_window_eval (dates : List Int) (risk : List ℚ)
    (threshold : ℚ) (hd : ¬(dates.length = 0 ∨ risk.length = 0))
    (hs : safeList risk threshold ≠ [])
    (hg : maxByLen (groupConsecutive (safeList risk threshold)) ≠ []) :
    calculate_safe_purchase_window dates risk threshold
      = (some (dates.getD
            ((maxByLen (groupConsecutive (safeList risk threshold))).headD 0) 0),
         some (dates.getD
            ((maxByLen (groupConsecutive (safeList risk threshold))).getLastD 0) 0),
         (maxByLen (groupConsecutive (safeList risk threshold))).length) := by
  simp only [calculate_safe_purchase_window]
  rw [if_neg hd, if_neg (by simpa using hs), if_neg (by simpa using hg)]

lemma safeList_spec_example :
    safeList [1/10, 2/5, 1/5, 1/5, 1/2, 1/10, 1/10, 1/10] (3/10) = [0, 2, 3, 5, 6, 7] := by
  norm_num [safeList, List.filter_cons, List.filter_nil,
    List.getD_cons_zero, List.getD_cons_succ,
    show List.range 8 = [0, 1, 2, 3, 4, 5, 6, 7] from rfl]

lemma safeList_threshold_example :
    safeList [3/10, 3/10] (3/10) = [] := by
  norm_num [safeList, List.filter_cons, List.filter_nil,
    List.getD_cons_zero, List.getD_cons_succ,
    show List.range 2 = [0, 1] from rfl]

/-- C1: calculate_safe_purchase_window with equal-length inputs returns the
sentinel (None, None, 0) exactly when no index has risk strictly below the
threshold (in particular when either input is empty, and for the boundary
example risk = [0.3, 0.3] with threshold 0.3, since equality is not safe);
otherwise it returns the start date, end date and length of a maximal run
of consecutive safe indices that is at least as long as every other
maximal run and starts earliest among runs of that greatest length; on
the spec example the run is indices 5-7 of length 3. -/
theorem calculate_safe_purchase_window_correct (dates : List Int) (risk : List ℚ)
    (threshold : ℚ) (hlen : dates.length = risk.length) :
    ((∀ i, i < risk.length → ¬ risk.getD i 0 < threshold) →
      calculate_safe_purchase_window dates risk threshold = (none, none, 0))
    ∧ (∀ i0, i0 < risk.length → risk.getD i0 0 < threshold →
        ∃ s k, IsMaxRun risk threshold s k
          ∧ (∀ s2 k2, IsMaxRun risk threshold s2 k2 → k2 ≤ k)
          ∧ (∀ s2 k2, IsMaxRun risk threshold s2 k2 → k2 = k → s ≤ s2)
          ∧ calculate_safe_purchase_window dates risk threshold
              = (some (dates.getD s 0), some (dates.getD (s + k - 1) 0), k))
    ∧ calculate_safe_purchase_window [0, 1, 2, 3, 4, 5, 6, 7]
        [1/10, 2/5, 1/5, 1/5, 1/2, 1/10, 1/10, 1/10] (3/10) = (some 5, some 7, 3)
    ∧ calculate_safe_purchase_window [0, 1] [3/10, 3/10] (3/10) = (none, none, 0) := by
  refine ⟨?_, ?_, ?_, ?_⟩
  · intro hall
    have hsafe : safeList risk threshold = [] := by
      rw [safeList, List.filter_eq_nil_iff]
      intro a ha
      simp only [decide_eq_true_eq]
      exact hall a (List.mem_range.mp ha)
    simp [calculate_safe_purchase_window, hsafe]
  · intro i0 hi0 hsafe0
    have hmem0 : i0 ∈ safeList risk threshold :=
      (mem_safeList _ _ i0).mpr ⟨hi0, hsafe0⟩
    have hne : safeList risk threshold ≠ [] := by
      intro h
      rw [h] at hmem0
      exact (List.not_mem_nil i0) hmem0
    obtain ⟨a, rest, hsl⟩ : ∃ a rest, safeList risk threshold = a :: rest := by
      cases hsl : safeList risk threshold with
      | nil => exact absurd hsl hne
      | cons a rest => exact ⟨a, rest, rfl⟩
    obtain ⟨k0, bs0, hblk⟩ := consecBlocks_head_start a rest
    have hblocks : consecBlocks (safeList risk threshold) = (a, k0) :: bs0 := by
      rw [hsl]
      exact hblk
    have hgapchain := consecBlocks_chain (safeList_chain risk threshold)
    rw [hblocks] at hgapchain
    have hstartchain : List.Chain' (fun x y : Nat × Nat => x.1 < y.1) ((a, k0) :: bs0) :=
      hgapchain.imp (fun hxy => by omega)
    obtain ⟨hbmem, hbbound⟩ := bestBlock_spec bs0 (a, k0) hstartchain
    have hBmem : (bestBlock (a, k0) bs0).1 + 0 = (bestBlock (a, k0) bs0).1 := rfl
    have hBblocks : ((bestBlock (a, k0) bs0).1, (bestBlock (a, k0) bs0).2)
        ∈ consecBlocks (safeList risk threshold) := by
      rw [hblocks]
      simpa using hbmem
    have hposB : 0 < (bestBlock (a, k0) bs0).2 :=
      consecBlocks_pos _ hBblocks
    have hmax : maxByLen (groupConsecutive (safeList risk threshold))
        = List.range' (bestBlock (a, k0) bs0).1 (bestBlock (a, k0) bs0).2 := by
      rw [groupConsecutive_eq_map, hblocks]
      exact maxByLen_map_eq (a, k0) bs0
    have hd1 : ¬(dates.length = 0 ∨ risk.length = 0) := by
      push_neg
      omega
    have hg : maxByLen (groupConsecutive (safeList risk threshold)) ≠ [] := by
      rw [hmax]
      intro hcon
      have hlencon := congrArg List.length hcon
      simp only [List.length_range', List.length_nil] at hlencon
      omega
    refine ⟨(bestBlock (a, k0) bs0).1, (bestBlock (a, k0) bs0).2, ?_, ?_, ?_, ?_⟩
    · exact (mem_consecBlocks_safe_iff risk threshold _ _).mp hBblocks
    · intro s2 k2 hrun
      have hmem2 : (s2, k2) ∈ (a, k0) :: bs0 := by
        rw [← hblocks]
        exact (mem_consecBlocks_safe_iff risk threshold s2 k2).mpr hrun
      exact (hbbound (s2, k2) hmem2).1
    · intro s2 k2 hrun hkk
      have hmem2 : (s2, k2) ∈ (a, k0) :: bs0 := by
        rw [← hblocks]
        exact (mem_consecBlocks_safe_iff risk threshold s2 k2).mpr hrun
      exact (hbbound (s2, k2) hmem2).2 hkk
    · rw [calculate_safe_purchase_window_eval dates risk threshold hd1 hne hg, hmax,
        range'_headD _ _ hposB 0, range'_getLastD _ _ 0 hposB]
      simp [List.length_range']
  · simp only [calculate_safe_purchase_window, safeList_spec_example]
    decide
  · simp only [calculate_safe_purchase_window, safeList_threshold_example]
    decide

/-- C1 witness: the correctness theorem applied to the spec example, whose
index 0 has risk 0.1 strictly below the threshold 0.3. -/
theorem calculate_safe_purchase_window_correct_witness :
    ∃ s k, IsMaxRun [1/10, 2/5, 1/5, 1/5, 1/2, 1/10, 1/10, 1/10] (3/10) s k
      ∧ (∀ s2 k2, IsMaxRun [1/10, 2/5, 1/5, 1/5, 1/2, 1/10, 1/10, 1/10] (3/10) s2 k2
          → k2 ≤ k)
      ∧ (∀ s2 k2, IsMaxRun [1/10, 2/5, 1/5, 1/5, 1/2, 1/10, 1/10, 1/10] (3/10) s2 k2
          → k2 = k → s ≤ s2)
      ∧ calculate_safe_purchase_window [0, 1, 2, 3, 4, 5, 6, 7]
          [1/10, 2/5, 1/5, 1/5, 1/2, 1/10, 1/10, 1/10] (3/10)
        = (some (List.getD [0, 1, 2, 3, 4, 5, 6, 7] s 0),
           some (List.getD [0, 1, 2, 3, 4, 5, 6, 7] (s + k - 1) 0), k) :=
  (calculate_safe_purchase_window_correct [0, 1, 2, 3, 4, 5, 6, 7]
    [1/10, 2/5, 1/5, 1/5, 1/2, 1/10, 1/10, 1/10] (3/10) (by simp)).2.1 0
    (by simp) (by norm_num)

lemma safeList_gap_example :
    safeList [1/10, 9/10, 1/10] (3/10) = [0, 2] := by
  norm_num [safeList, List.filter_cons, List.filter_nil,
    List.getD_cons_zero, List.getD_cons_succ,
    show List.range 3 = [0, 1, 2] from rfl]

lemma max_fold_example :
    ([1/10, 9/10, 1/10] : List ℚ).foldl max
      (([1/10, 9/10, 1/10] : List ℚ).headD 0) = 9/10 := by
  simp only [List.headD_cons, List.foldl_cons, List.foldl_nil, max_self]
  rw [max_eq_right (by norm_num : (1:ℚ)/10 ≤ 9/10),
    max_eq_left (by norm_num : (1:ℚ)/10 ≤ 9/10)]

lemma getElem?_eq_some_getD {α : Type} :
    ∀ (l : List α) (i : Nat), i < l.length → ∀ (d : α), l[i]? = some (l.getD i d) := by
  intro l
  induction l with
  | nil => intro i hi; simp at hi
  | cons a t ih =>
    intro i hi d
    cases i with
    | zero => simp
    | succ j =>
      simp only [List.length_cons, Nat.succ_lt_succ_iff] at hi
      simpa using ih j hi d

lemma get_recommendation_gap_eval :
    get_recommendation [10, 20, 30] [1/10, 9/10, 1/10] [0, 1, 2] (3/10)
      = some
          { highAlert := false, startDate := some 0, endDate := some 2,
            durationDays := some 2, reportedAvgDemand := some 20,
            higherSafetyStockNote := false, contingencyNote := true } := by
  have h1 : ([0, 1, 2] : List Int)[(([0, 2] : List Nat).headD 0)]? = some 0 := rfl
  have h2 : ([0, 1, 2] : List Int)[(([0, 2] : List Nat).getLastD 0)]? = some 2 := rfl
  simp only [get_recommendation, safeList_gap_example, max_fold_example, h1, h2]
  rw [if_neg (by simp : ¬([1/10, 9/10, 1/10] : List ℚ) = [])]
  norm_num [Recommendation.mk.injEq, List.sum_cons, List.sum_nil,
    decide_eq_true_eq, decide_eq_false_iff_not]

/-- C3 counterexample: on demand [10, 20, 30], risk [0.1, 0.9, 0.1], dates
[0, 1, 2], threshold 0.3, the recommendation spans from the first to the
last safe index (end date 2, duration 2 = the count of safe indices) and
reports the whole-series mean demand 20, while the longest contiguous
safe run found by SafeWindowSearch is the single index 0 (end date 0,
length 1, window mean demand 10); the claimed suggested order quantity is
not produced at all. -/
theorem get_recommendation_cex :
    get_recommendation [10, 20, 30] [1/10, 9/10, 1/10] [0, 1, 2] (3/10)
      = some
          { highAlert := false, startDate := some 0, endDate := some 2,
            durationDays := some 2, reportedAvgDemand := some 20,
            higherSafetyStockNote := false, contingencyNote := true }
    ∧ calculate_safe_purchase_window [0, 1, 2] [1/10, 9/10, 1/10] (3/10)
        = (some 0, some 0, 1)
    ∧ some (2 : Int) ≠ some (0 : Int) ∧ (2 : Nat) ≠ 1 ∧ (20 : ℚ) ≠ 10 := by
  refine ⟨get_recommendation_gap_eval, ?_, by simp, by norm_num, by norm_num⟩
  simp only [calculate_safe_purchase_window, safeList_gap_example]
  decide

lemma get_recommendation_eval (demand risk : List ℚ) (dates : List Int)
    (threshold : ℚ) (hrne : risk ≠ []) (hs : safeList risk threshold ≠ [])
    (hlo : (safeList risk threshold).headD 0 < dates.length)
    (hhi : (safeList risk threshold).getLastD 0 < dates.length) :
    get_recommendation demand risk dates threshold
      = some
          { highAlert := false,
            startDate := some (dates.getD ((safeList risk threshold).headD 0) 0),
            endDate := some (dates.getD ((safeList risk threshold).getLastD 0) 0),
            durationDays := some (safeList risk threshold).length,
            reportedAvgDemand := some (demand.sum / (demand.length : ℚ)),
            higherSafetyStockNote := decide ((1 : ℚ)/2 < risk.sum / (risk.length : ℚ)),
            contingencyNote := decide ((7 : ℚ)/10 < risk.foldl max (risk.headD 0)) } := by
  simp only [get_recommendation]
  rw [if_neg hrne, if_neg (by simpa using hs),
    getElem?_eq_some_getD dates _ hlo 0, getElem?_eq_some_getD dates _ hhi 0]

/-- C3 amended: get_recommendation computes the indices with adjusted risk
strictly below the threshold, after aggregate statistics whose np.max
raises on an empty risk series (modelled as an absent result); with no
safe index it emits the high-alert recommendation carrying no dates and
no statistics; otherwise it reports the span from the first safe index to
the last safe index (which may contain unsafe days) via date lookups that
raise when out of range (absent result), a duration equal to the total
count of safe indices, the mean demand of the whole series (not of the
window) when the demand series is non-empty, and advisory notes exactly
when the mean risk exceeds 0.5 or the peak risk exceeds 0.7; no suggested
order quantity is produced. -/
theorem get_recommendation_spec (demand risk : List ℚ) (dates : List Int)
    (threshold : ℚ) :
    (risk = [] → get_recommendation demand risk dates threshold = none)
    ∧ (risk ≠ [] → (∀ i, i < risk.length → ¬ risk.getD i 0 < threshold) →
      get_recommendation demand risk dates threshold
        = some
            { highAlert := true, startDate := none, endDate := none,
              durationDays := none, reportedAvgDemand := none,
              higherSafetyStockNote := false, contingencyNote := false })
    ∧ (dates.length = risk.length →
        ∀ i0, i0 < risk.length → risk.getD i0 0 < threshold →
        ∃ lo hi, SafeIdx risk threshold lo ∧ SafeIdx risk threshold hi
          ∧ (∀ j, SafeIdx risk threshold j → lo ≤ j ∧ j ≤ hi)
          ∧ ∃ r, get_recommendation demand risk dates threshold = some r
            ∧ r.highAlert = false
            ∧ r.startDate = some (dates.getD lo 0)
            ∧ r.endDate = some (dates.getD hi 0)
            ∧ r.durationDays = some ((List.range risk.length).countP
                (fun i => decide (risk.getD i 0 < threshold)))
            ∧ (demand ≠ [] → r.reportedAvgDemand
                = some (demand.sum / (demand.length : ℚ)))
            ∧ ∃ pk, pk ∈ risk ∧ (∀ x ∈ risk, x ≤ pk)
              ∧ (r.higherSafetyStockNote = true
                  ↔ (1 : ℚ)/2 < risk.sum / (risk.length : ℚ))
              ∧ (r.contingencyNote = true ↔ (7 : ℚ)/10 < pk)) := by
  refine ⟨?_, ?_, ?_⟩
  · intro h
    simp [get_recommendation, h]
  · intro hrne hall
    have hsafe : safeList risk threshold = [] := by
      rw [safeList, List.filter_eq_nil_iff]
      intro a ha
      simp only [decide_eq_true_eq]
      exact hall a (List.mem_range.mp ha)
    simp only [get_recommendation, hsafe]
    rw [if_neg hrne]
    simp
  · intro hlen i0 hi0 hsafe0
    have hmem0 : i0 ∈ safeList risk threshold :=
      (mem_safeList _ _ i0).mpr ⟨hi0, hsafe0⟩
    have hne : safeList risk threshold ≠ [] := by
      intro h
      rw [h] at hmem0
      exact (List.not_mem_nil i0) hmem0
    have hrne : risk ≠ [] := by
      intro h
      rw [h] at hi0
      simp at hi0
    have hloSafe : SafeIdx risk threshold ((safeList risk threshold).headD 0) :=
      (mem_safeList _ _ _).mp (headD_mem hne 0)
    have hhiSafe : SafeIdx risk threshold ((safeList risk threshold).getLastD 0) :=
      (mem_safeList _ _ _).mp (getLastD_mem hne 0)
    have hlo : (safeList risk threshold).headD 0 < dates.length := by
      rw [hlen]
      exact hloSafe.1
    have hhi : (safeList risk threshold).getLastD 0 < dates.length := by
      rw [hlen]
      exact hhiSafe.1
    refine ⟨(safeList risk threshold).headD 0, (safeList risk threshold).getLastD 0,
      hloSafe, hhiSafe, ?_,
      _, get_recommendation_eval demand risk dates threshold hrne hne hlo hhi,
      rfl, rfl, rfl, ?_, fun _ => rfl, ?_⟩
    · intro j hj
      have hjmem := (mem_safeList risk threshold j).mpr hj
      exact ⟨headD_le_of_pairwise (safeList_pairwise risk threshold) hjmem 0,
        le_getLastD_of_pairwise (safeList_pairwise risk threshold) hjmem 0⟩
    · show some (safeList risk threshold).length = _
      simp only [safeList, Option.some.injEq]
      exact (List.countP_eq_length_filter _ _).symm
    · refine ⟨risk.foldl max (risk.headD 0), ?_, ?_, ?_, ?_⟩
      · rcases foldl_max_mem risk (risk.headD 0) with h | h
        · rw [h]
          exact headD_mem hrne 0
        · exact h
      · intro x hx
        exact foldl_max_le_of_mem risk (risk.headD 0) x hx
      · show decide ((1 : ℚ)/2 < risk.sum / (risk.length : ℚ)) = true ↔ _
        simp [decide_eq_true_eq]
      · show decide ((7 : ℚ)/10 < risk.foldl max (risk.headD 0)) = true ↔ _
        simp [decide_eq_true_eq]

/-- C3 witness: the amended theorem applied at demand [10], risk [0.1],
dates [7], threshold 0.3, where the lengths agree and index 0 is safe. -/
theorem get_recommendation_spec_witness :
    ∃ lo hi, SafeIdx [1/10] (3/10) lo ∧ SafeIdx [1/10] (3/10) hi
      ∧ (∀ j, SafeIdx [1/10] (3/10) j → lo ≤ j ∧ j ≤ hi)
      ∧ ∃ r, get_recommendation [10] [1/10] [7] (3/10) = some r
        ∧ r.highAlert = false
        ∧ r.startDate = some (List.getD [7] lo 0)
        ∧ r.endDate = some (List.getD [7] hi 0)
        ∧ r.durationDays = some ((List.range ([1/10] : List ℚ).length).countP
            (fun i => decide (([1/10] : List ℚ).getD i 0 < 3/10)))
        ∧ (([10] : List ℚ) ≠ [] → r.reportedAvgDemand
            = some (([10] : List ℚ).sum / (([10] : List ℚ).length : ℚ)))
        ∧ ∃ pk, pk ∈ ([1/10] : List ℚ) ∧ (∀ x ∈ ([1/10] : List ℚ), x ≤ pk)
          ∧ (r.higherSafetyStockNote = true
              ↔ (1 : ℚ)/2 < ([1/10] : List ℚ).sum / (([1/10] : List ℚ).length : ℚ))
          ∧ (r.contingencyNote = true ↔ (7 : ℚ)/10 < pk) :=
  (get_recommendation_spec [10] [1/10] [7] (3/10)).2.2 (by simp) 0 (by simp)
    (by norm_num)
